import Mathlib

/-!
Verification of the allocation reconciliation engine, ledger store and
orchestrator of `solana-tokens` (src/src/main.rs).

Modelling conventions:
* Rust `f64` dollar / SOL amounts are modelled as exact rationals `ℚ`;
  every operation the code performs on amounts (subtraction, comparison,
  division by the conversion rate) is mirrored exactly.
* In-place mutation of the allocation vector becomes explicit list
  transformation; the `break` of the inner loop becomes a structural
  recursion that returns the unchanged tail.
* File-system effects of the ledger store are modelled by an explicit
  `Fs` state (ledger file contents and backup file contents); a CSV file
  is a list of rows, a row is either the header row or a serialized
  `TransactionInfo`.  A Rust panic (out-of-bounds index) is modelled by
  `Option.none`.
-/

namespace SolanaTokens

/-- `Bid` (main.rs lines 24–28): one row of the bid schedule. -/
structure Bid where
  bid_amount_dollars : ℚ
  primary_address : String
deriving DecidableEq, Repr

/-- `Allocation` (main.rs lines 30–33): a recipient and the amount owed. -/
structure Allocation where
  recipient : String
  amount : ℚ
deriving DecidableEq, Repr

/-- `TransactionInfo` (main.rs lines 35–40): one durable ledger record. -/
structure TransactionInfo where
  recipient : String
  amount : ℚ
  signature : String
deriving DecidableEq, Repr

/-- The inner `for allocation in allocations.iter_mut()` loop of
`apply_previous_transactions` (main.rs lines 47–56), for one record's
running debit `amount`: the first allocation with `amount ≥ debit` absorbs
the whole remaining debit and the loop `break`s (tail untouched); any
earlier allocation is set to `0` and its amount is subtracted from the
running debit. -/
def applyRecord : List Allocation → ℚ → List Allocation
  | [], _ => []
  | allocation :: rest, amount =>
    if allocation.amount ≥ amount then
      { allocation with amount := allocation.amount - amount } :: rest
    else
      { allocation with amount := 0 } :: applyRecord rest (amount - allocation.amount)

/-- `apply_previous_transactions` (main.rs lines 42–59): fold the inner
loop over the ledger records in order, then `retain` only the allocations
with `amount > 0.0`. -/
def apply_previous_transactions (allocations : List Allocation)
    (transaction_infos : List TransactionInfo) : List Allocation :=
  (transaction_infos.foldl (fun allocs t => applyRecord allocs t.amount)
      allocations).filter (fun x => decide (0 < x.amount))

/-- `create_allocation` (main.rs lines 61–66). -/
def create_allocation (bid : Bid) (dollars_per_sol : ℚ) : Allocation :=
  { recipient := bid.primary_address
    amount := bid.bid_amount_dollars / dollars_per_sol }

/-- The scan of one historical record as worded by the specification
(§4.2, steps 1–3): fully consume (set to 0) each allocation whose amount
is strictly less than the remaining debit, reducing the debit by that
amount; for the first allocation whose amount is greater than or equal to
the remaining debit, subtract the debit from it and stop scanning. -/
def specScanRecord : List Allocation → ℚ → List Allocation
  | [], _ => []
  | allocation :: rest, debit =>
    if allocation.amount < debit then
      { allocation with amount := 0 } :: specScanRecord rest (debit - allocation.amount)
    else
      { allocation with amount := allocation.amount - debit } :: rest

/-- Reconciliation as worded by the specification (§4.2): process the
records in ledger order with `specScanRecord` (leftover debit dropped),
then remove every allocation with amount ≤ 0. -/
def specReconcile (allocations : List Allocation)
    (records : List TransactionInfo) : List Allocation :=
  (records.foldl (fun allocs r => specScanRecord allocs r.amount)
      allocations).filter (fun x => decide (¬ x.amount ≤ 0))

/-- One row of the transactions CSV: the header row, or one serialized
`TransactionInfo` record. -/
inductive CsvRow where
  | header : CsvRow
  | record : TransactionInfo → CsvRow
deriving DecidableEq, Repr

/-- File-system state seen by the ledger store: the contents of the
transactions CSV and of its `.bak` sibling (`none` means the file is
absent). -/
structure Fs where
  ledger : Option (List CsvRow)
  ledgerBak : Option (List CsvRow)
deriving DecidableEq, Repr

/-- The write loop of `append_transaction_infos` (main.rs lines 113–120):
row `i` serializes allocation `i` together with `signatures[i]`.  The Rust
indexing `signatures[i]` panics when out of bounds; the panic is modelled
by `none`. -/
def writeRows : List Allocation → List String → Nat → Option (List CsvRow)
  | [], _, _ => some []
  | allocation :: rest, signatures, i =>
    match signatures.get? i with
    | none => none
    | some s =>
      (writeRows rest signatures (i + 1)).map
        (fun rows =>
          CsvRow.record (TransactionInfo.mk allocation.recipient allocation.amount s) :: rows)

/-- `append_transaction_infos` (main.rs lines 94–123): if the ledger file
exists, copy it to the `.bak` path before any mutation, then open it in
append mode and write headerless rows; if it does not exist, create it
fresh.  The CSV writer is built with `has_headers(!existed)`, and the csv
crate emits the header row lazily, immediately before the first
serialized record — so a freshly created file receives the header row
only when at least one allocation is written, and an append of zero
allocations leaves a fresh file empty.  Then write one record per
allocation (`writeRows`) and flush.  The final file contents stand for
the flushed state. -/
def append_transaction_infos (allocations : List Allocation)
    (signatures : List String) (fs : Fs) : Option Fs :=
  let existed := fs.ledger.isSome
  let bak := if existed then fs.ledger else fs.ledgerBak
  let initialRows : List CsvRow :=
    match fs.ledger with
    | some rows => rows
    | none => if allocations.isEmpty then [] else [CsvRow.header]
  (writeRows allocations signatures 0).map
    (fun newRows => Fs.mk (some (initialRows ++ newRows)) bak)

/-- A transfer message (main.rs lines 74–79): one system transfer
instruction from the sender's pubkey to the allocation's recipient for the
allocation's amount converted to lamports. -/
structure Message where
  source : String
  destination : String
  lamports : ℤ
deriving DecidableEq, Repr

/-- `sol_to_lamports` of the solana SDK: SOL × 10⁹, truncated to an
integer (the `as u64` cast); the saturation bounds of `u64` are not
relevant to any claim and are omitted. -/
def sol_to_lamports (sol : ℚ) : ℤ :=
  ⌊sol * 1000000000⌋

/-- `distribute_tokens` (main.rs lines 67–92): build one transfer message
per allocation and send each through the client in order, collecting one
signature per message.  The network client (and the signer pair it is
given) is abstracted as a function from messages to signature strings. -/
def distribute_tokens (allocations : List Allocation) (sender : String)
    (send_message : Message → String) : List String :=
  let messages := allocations.map
    (fun allocation =>
      Message.mk sender allocation.recipient (sol_to_lamports allocation.amount))
  messages.map send_message

/-- Loading the transactions CSV (main.rs lines 137–144): an absent file
yields the empty history; otherwise every record row is deserialized (the
header row is skipped by the CSV reader). -/
def loadTransactionInfos (fs : Fs) : List TransactionInfo :=
  match fs.ledger with
  | some rows => rows.filterMap
      (fun row => match row with
        | CsvRow.header => none
        | CsvRow.record t => some t)
  | none => []

/-- Observable outcome of one `process_distribute` run: the final
file-system state, the allocation batches handed to the transfer
executor, and the printed plan. -/
structure RunResult where
  fs : Fs
  transferCalls : List (List Allocation)
  printed : List Allocation
deriving DecidableEq, Repr

/-- `process_distribute` (main.rs lines 125–166): derive allocations from
the bids, load the ledger history, reconcile; stop successfully with no
output if nothing remains; otherwise print the plan and, unless
`dry_run`, send the transfers and append the ledger. -/
def process_distribute (bids : List Bid) (dollars_per_sol : ℚ)
    (dry_run : Bool) (sender : String) (send_message : Message → String)
    (fs : Fs) : Option RunResult :=
  let allocations := bids.map (fun bid => create_allocation bid dollars_per_sol)
  let remaining := apply_previous_transactions allocations (loadTransactionInfos fs)
  if remaining.isEmpty then
    some (RunResult.mk fs [] [])
  else
    if dry_run then
      some (RunResult.mk fs [] remaining)
    else
      let signatures := distribute_tokens remaining sender send_message
      (append_transaction_infos remaining signatures fs).map
        (fun fs1 => RunResult.mk fs1 [remaining] remaining)

lemma applyRecord_eq_specScanRecord (allocs : List Allocation) (d : ℚ) :
    applyRecord allocs d = specScanRecord allocs d := by
  induction allocs generalizing d with
  | nil => rfl
  | cons a rest ih =>
    by_cases h : a.amount ≥ d
    · rw [applyRecord, specScanRecord, if_pos h, if_neg (not_lt.mpr h)]
    · rw [applyRecord, specScanRecord, if_neg h, if_pos (not_le.mp h), ih]

/-- C1: the code's reconciliation pass coincides with the specification's
algorithm — records processed in ledger order, each record's amount used as
a running debit over a left-to-right scan that fully consumes allocations
smaller than the remaining debit and partially consumes the first
allocation at least as large (stopping there), leftover debit dropped,
and allocations with amount ≤ 0 removed at the end. -/
theorem apply_previous_transactions_eq_spec
    (allocations : List Allocation) (transaction_infos : List TransactionInfo) :
    apply_previous_transactions allocations transaction_infos =
      specReconcile allocations transaction_infos := by
  unfold apply_previous_transactions specReconcile
  congr 1
  · funext x
    simp [not_le]
  · induction transaction_infos generalizing allocations with
    | nil => rfl
    | cons t rest ih =>
      simp only [List.foldl_cons, applyRecord_eq_specScanRecord, ih]

/-- C4: every allocation surviving reconciliation has a strictly positive
amount. -/
theorem apply_previous_transactions_pos
    (allocations : List Allocation) (transaction_infos : List TransactionInfo)
    (a : Allocation) (ha : a ∈ apply_previous_transactions allocations transaction_infos) :
    0 < a.amount := by
  rw [apply_previous_transactions, List.mem_filter] at ha
  exact of_decide_eq_true ha.2

/-- Witness for C4 at a concrete input: reconciling `[(A,10),(B,5)]`
against a single record of amount 10 leaves `(B,5)`, whose amount is
positive. -/
theorem apply_previous_transactions_pos_witness :
    (0:ℚ) <
      (Allocation.mk "B" 5).amount ∧
      Allocation.mk "B" 5 ∈
        apply_previous_transactions
          [Allocation.mk "A" 10, Allocation.mk "B" 5]
          [TransactionInfo.mk "A" 10 "r1"] := by
  refine ⟨?_, ?_⟩
  · exact apply_previous_transactions_pos
      [Allocation.mk "A" 10, Allocation.mk "B" 5]
      [TransactionInfo.mk "A" 10 "r1"]
      (Allocation.mk "B" 5)
      (by norm_num [apply_previous_transactions, applyRecord, List.filter])
  · norm_num [apply_previous_transactions, applyRecord, List.filter]

lemma applyRecord_map_recipient (allocs : List Allocation) (d : ℚ) :
    (applyRecord allocs d).map Allocation.recipient = allocs.map Allocation.recipient := by
  induction allocs generalizing d with
  | nil => rfl
  | cons a rest ih =>
    rw [applyRecord]
    by_cases h : a.amount ≥ d
    · rw [if_pos h]
      simp
    · rw [if_neg h, List.map_cons, List.map_cons, ih]

lemma foldl_applyRecord_map_recipient (infos : List TransactionInfo)
    (allocs : List Allocation) :
    ((infos.foldl (fun l t => applyRecord l t.amount) allocs).map Allocation.recipient) =
      allocs.map Allocation.recipient := by
  induction infos generalizing allocs with
  | nil => rfl
  | cons t rest ih =>
    rw [List.foldl_cons, ih, applyRecord_map_recipient]

/-- C5: order stability — the list of recipients surviving reconciliation
is a subsequence of the input list of recipients: each survivor comes from
a distinct input entry and the relative order is preserved, with nothing
added or reordered. -/
theorem apply_previous_transactions_sublist
    (allocations : List Allocation) (transaction_infos : List TransactionInfo) :
    ((apply_previous_transactions allocations transaction_infos).map
        Allocation.recipient).Sublist
      (allocations.map Allocation.recipient) := by
  rw [apply_previous_transactions]
  have h := (List.filter_sublist (l := transaction_infos.foldl
      (fun allocs t => applyRecord allocs t.amount) allocations)
      (p := fun x => decide (0 < x.amount))).map Allocation.recipient
  rwa [foldl_applyRecord_map_recipient] at h

lemma foldl_records_eq_foldl_amounts (allocs : List Allocation)
    (infos : List TransactionInfo) :
    infos.foldl (fun l t => applyRecord l t.amount) allocs =
      (infos.map TransactionInfo.amount).foldl applyRecord allocs :=
  (List.foldl_map _ _ _ _).symm

/-- C3: reconciliation is blind to record identity — it depends only on
the amounts of the history's records, not on their recipient or signature
fields; concretely, reconciling `[(A,10),(B,5)]` against one record of
amount 10 yields `[(B,5)]` whatever recipient and signature the record
carries. -/
theorem apply_previous_transactions_amount_blind :
    (∀ (allocations : List Allocation) (h1 h2 : List TransactionInfo),
        h1.map TransactionInfo.amount = h2.map TransactionInfo.amount →
        apply_previous_transactions allocations h1 =
          apply_previous_transactions allocations h2) ∧
    ∀ (r s : String),
      apply_previous_transactions [Allocation.mk "A" 10, Allocation.mk "B" 5]
        [TransactionInfo.mk r 10 s] = [Allocation.mk "B" 5] := by
  constructor
  · intro allocations h1 h2 hamt
    rw [apply_previous_transactions, apply_previous_transactions,
      foldl_records_eq_foldl_amounts, foldl_records_eq_foldl_amounts, hamt]
  · intro r s
    norm_num [apply_previous_transactions, applyRecord, List.filter]

/-- Witness for C3: two single-record histories naming different
recipients and signatures but the same amount reconcile identically. -/
theorem apply_previous_transactions_amount_blind_witness :
    apply_previous_transactions [Allocation.mk "A" 10, Allocation.mk "B" 5]
        [TransactionInfo.mk "A" 10 "r1"] =
      apply_previous_transactions [Allocation.mk "A" 10, Allocation.mk "B" 5]
        [TransactionInfo.mk "Z" 10 "other"] :=
  apply_previous_transactions_amount_blind.1
    [Allocation.mk "A" 10, Allocation.mk "B" 5]
    [TransactionInfo.mk "A" 10 "r1"]
    [TransactionInfo.mk "Z" 10 "other"]
    (by norm_num)

/-- C8: allocation derivation — the derived allocation keeps the bid's
recipient address and carries the bid's dollar amount divided by the
dollars-per-SOL rate; concretely, bids `[(A,$100),(B,$50)]` at `$10/unit`
against an empty ledger reconcile to exactly `[(A,10),(B,5)]`. -/
theorem create_allocation_spec :
    (∀ (bid : Bid) (dollars_per_sol : ℚ),
        (create_allocation bid dollars_per_sol).recipient = bid.primary_address ∧
        (create_allocation bid dollars_per_sol).amount =
          bid.bid_amount_dollars / dollars_per_sol) ∧
    apply_previous_transactions
        ([Bid.mk 100 "A", Bid.mk 50 "B"].map (fun b => create_allocation b 10)) [] =
      [Allocation.mk "A" 10, Allocation.mk "B" 5] := by
  constructor
  · exact fun bid dollars_per_sol => ⟨rfl, rfl⟩
  · norm_num [create_allocation, apply_previous_transactions, List.filter]

lemma update_amount_zero_eq (z : Allocation) (h : z.amount = 0) :
    { z with amount := 0 } = z := by
  cases z
  simp_all

lemma filter_pos_map_zero (l : List Allocation) :
    (l.map (fun a => { a with amount := 0 })).filter
      (fun x => decide (0 < x.amount)) = [] := by
  induction l with
  | nil => rfl
  | cons a rest ih => simp [List.filter, ih]

lemma applyRecord_zeros (zs : List Allocation) (a : Allocation)
    (rest : List Allocation) (hz : ∀ z ∈ zs, z.amount = 0) (ha : 0 < a.amount) :
    applyRecord (zs ++ a :: rest) a.amount = zs ++ { a with amount := 0 } :: rest := by
  induction zs with
  | nil =>
    rw [List.nil_append, applyRecord, if_pos (le_refl a.amount)]
    simp
  | cons z zs ih =>
    have hz0 : z.amount = 0 := hz z (List.mem_cons_self z zs)
    rw [List.cons_append, applyRecord,
      if_neg (by rw [hz0]; exact not_le.mpr ha), hz0, sub_zero,
      update_amount_zero_eq z hz0, List.cons_append,
      ih (fun w hw => hz w (List.mem_cons_of_mem z hw))]

lemma foldl_applyRecord_self (rest : List Allocation) :
    ∀ (zs : List Allocation), (∀ z ∈ zs, z.amount = 0) →
    (∀ a ∈ rest, 0 < a.amount) →
    List.foldl applyRecord (zs ++ rest) (rest.map Allocation.amount) =
      zs ++ rest.map (fun a => { a with amount := 0 }) := by
  induction rest with
  | nil => intro zs _ _; simp
  | cons a rest ih =>
    intro zs hz hpos
    rw [List.map_cons, List.foldl_cons,
      applyRecord_zeros zs a rest hz (hpos a (List.mem_cons_self a rest))]
    have hassoc : zs ++ { a with amount := 0 } :: rest =
        (zs ++ [{ a with amount := 0 }]) ++ rest := by
      rw [List.append_assoc, List.singleton_append]
    have hzl : ∀ z ∈ zs ++ [{ a with amount := 0 }], z.amount = 0 := by
      intro z hzmem
      rcases List.mem_append.mp hzmem with h | h
      · exact hz z h
      · simp at h
        rw [h]
    have step := ih (zs ++ [{ a with amount := 0 }]) hzl
      (fun b hb => hpos b (List.mem_cons_of_mem a hb))
    rw [hassoc, step]
    simp

/-- C2: full ledger replay is absorbing — starting from allocations with
strictly positive amounts, reconciling against a history whose records
carry exactly those amounts in the same order leaves an empty remaining
allocation list. -/
theorem apply_previous_transactions_full_replay
    (allocations : List Allocation) (transaction_infos : List TransactionInfo)
    (hpos : ∀ a ∈ allocations, 0 < a.amount)
    (hamt : transaction_infos.map TransactionInfo.amount =
      allocations.map Allocation.amount) :
    apply_previous_transactions allocations transaction_infos = [] := by
  rw [apply_previous_transactions, foldl_records_eq_foldl_amounts, hamt]
  have h := foldl_applyRecord_self allocations [] (by intro z hz; cases hz) hpos
  rw [List.nil_append] at h
  rw [h, List.nil_append, filter_pos_map_zero]

/-- Witness for C2: the ledger `[(A,10,"r1"),(B,5,"r2")]` fully absorbs
the allocations `[(A,10),(B,5)]`. -/
theorem apply_previous_transactions_full_replay_witness :
    apply_previous_transactions [Allocation.mk "A" 10, Allocation.mk "B" 5]
      [TransactionInfo.mk "A" 10 "r1", TransactionInfo.mk "B" 5 "r2"] = [] :=
  apply_previous_transactions_full_replay
    [Allocation.mk "A" 10, Allocation.mk "B" 5]
    [TransactionInfo.mk "A" 10 "r1", TransactionInfo.mk "B" 5 "r2"]
    (by norm_num) (by norm_num)

/-- Counterexample for C6 as stated: with an allocation list containing a
negative amount, a record whose amount (0) strictly exceeds the sum of
allocation amounts (−5) does NOT clear the list — the first allocation
`(A,5)` absorbs the debit and survives. -/
theorem over_payment_counterexample :
    ([Allocation.mk "A" 5, Allocation.mk "B" (-10)].map Allocation.amount).sum <
        (TransactionInfo.mk "X" 0 "s").amount ∧
      apply_previous_transactions [Allocation.mk "A" 5, Allocation.mk "B" (-10)]
        [TransactionInfo.mk "X" 0 "s"] ≠ [] := by
  constructor
  · norm_num
  · norm_num [apply_previous_transactions, applyRecord, List.filter]

lemma applyRecord_consume_all (l : List Allocation) :
    ∀ (d : ℚ), (∀ a ∈ l, 0 ≤ a.amount) → (l.map Allocation.amount).sum < d →
    applyRecord l d = l.map (fun a => { a with amount := 0 }) := by
  induction l with
  | nil => intro d _ _; rfl
  | cons a rest ih =>
    intro d hnn hd
    rw [List.map_cons, List.sum_cons] at hd
    have hrest : 0 ≤ (rest.map Allocation.amount).sum :=
      List.sum_nonneg (by
        intro x hx
        rcases List.mem_map.mp hx with ⟨b, hb, rfl⟩
        exact hnn b (List.mem_cons_of_mem a hb))
    have hlt : a.amount < d := lt_of_le_of_lt (le_add_of_nonneg_right hrest) hd
    rw [applyRecord, if_neg (not_le.mpr hlt), List.map_cons,
      ih (d - a.amount) (fun b hb => hnn b (List.mem_cons_of_mem a hb))
        (by linarith)]

/-- C6 (amended): for allocation lists with nonnegative amounts, a single
history record whose amount strictly exceeds the total allocation sum
consumes every allocation to 0; the unmatched remainder is dropped, all
allocations are pruned, and the (total) reconciliation pass reports no
error. -/
theorem over_payment_clears
    (allocations : List Allocation) (t : TransactionInfo)
    (hnn : ∀ a ∈ allocations, 0 ≤ a.amount)
    (hover : (allocations.map Allocation.amount).sum < t.amount) :
    apply_previous_transactions allocations [t] = [] := by
  rw [apply_previous_transactions, List.foldl_cons, List.foldl_nil,
    applyRecord_consume_all allocations t.amount hnn hover, filter_pos_map_zero]

/-- Witness for C6 (amended): a record of amount 100 clears `[(A,5),(B,3)]`. -/
theorem over_payment_clears_witness :
    apply_previous_transactions [Allocation.mk "A" 5, Allocation.mk "B" 3]
      [TransactionInfo.mk "A" 100 "r1"] = [] :=
  over_payment_clears [Allocation.mk "A" 5, Allocation.mk "B" 3]
    (TransactionInfo.mk "A" 100 "r1") (by norm_num) (by norm_num)

lemma writeRows_shift (allocations : List Allocation) (s : String)
    (ss : List String) : ∀ i : Nat,
    writeRows allocations (s :: ss) (i + 1) = writeRows allocations ss i := by
  induction allocations with
  | nil => intro i; rfl
  | cons a rest ih =>
    intro i
    simp only [writeRows, List.get?, ih (i + 1)]

lemma writeRows_some (allocations : List Allocation) :
    ∀ signatures : List String, allocations.length ≤ signatures.length →
    writeRows allocations signatures 0 =
      some (List.zipWith
        (fun a s => CsvRow.record (TransactionInfo.mk a.recipient a.amount s))
        allocations signatures) := by
  induction allocations with
  | nil => intro signatures _; rfl
  | cons a rest ih =>
    intro signatures hlen
    match signatures with
    | [] => simp at hlen
    | s :: ss =>
      simp only [writeRows, List.get?, writeRows_shift rest s ss 0,
        ih ss (by simpa using hlen), List.zipWith]
      rfl

lemma writeRows_none (allocations : List Allocation) :
    ∀ signatures : List String, signatures.length < allocations.length →
    writeRows allocations signatures 0 = none := by
  induction allocations with
  | nil => intro signatures h; simp at h
  | cons a rest ih =>
    intro signatures h
    match signatures with
    | [] => rfl
    | s :: ss =>
      simp only [writeRows, List.get?, writeRows_shift rest s ss 0,
        ih ss (by simpa using h)]
      rfl

/-- Counterexample for C7 as stated: appending zero allocations when the
ledger file is absent creates the file *empty* — the csv crate writes the
header only before the first serialized record, and no record is
serialized — whereas the claim asserts every fresh creation starts with a
header row (and `[] ≠ [CsvRow.header]`). -/
theorem append_transaction_infos_header_counterexample :
    append_transaction_infos [] [] (Fs.mk none none) =
        some (Fs.mk (some []) none) ∧
      ([] : List CsvRow) ≠ [CsvRow.header] := by
  exact ⟨rfl, by simp⟩

/-- C7 (amended): the ledger append — given enough signatures, the
operation succeeds; the new ledger contents are the old contents (or, for
a freshly created file, the header row when at least one allocation is
written and nothing otherwise, the CSV writer emitting the header lazily
before the first record) followed by exactly one record per input
allocation, in input order, each pairing the allocation's recipient and
amount with its signature; the backup receives a full copy of the
pre-append ledger exactly when the ledger already existed, otherwise the
backup is untouched. -/
theorem append_transaction_infos_spec
    (allocations : List Allocation) (signatures : List String) (fs : Fs)
    (hlen : allocations.length ≤ signatures.length) :
    append_transaction_infos allocations signatures fs =
      some (Fs.mk
        (some ((match fs.ledger with
          | some rows => rows
          | none => if allocations.isEmpty then [] else [CsvRow.header]) ++
          List.zipWith
            (fun a s => CsvRow.record (TransactionInfo.mk a.recipient a.amount s))
            allocations signatures))
        (if fs.ledger.isSome then fs.ledger else fs.ledgerBak)) := by
  simp only [append_transaction_infos, writeRows_some allocations signatures hlen]
  rfl

/-- Witness for C7: appending one allocation to an absent ledger creates
the file with a header row followed by the one record, and makes no
backup. -/
theorem append_transaction_infos_spec_witness :
    append_transaction_infos [Allocation.mk "A" 10] ["s1"] (Fs.mk none none) =
      some (Fs.mk
        (some [CsvRow.header, CsvRow.record (TransactionInfo.mk "A" 10 "s1")])
        none) := by
  have h := append_transaction_infos_spec [Allocation.mk "A" 10] ["s1"]
    (Fs.mk none none) (by norm_num)
  simpa using h

/-- C10: index safety of the write loop — when at least one signature per
allocation is available every `signatures[i]` access is in bounds and the
append does not hit the out-of-bounds branch; with fewer signatures than
allocations the operation panics (modelled as `none`); and
`distribute_tokens` establishes the precondition by returning exactly one
signature per allocation, in order. -/
theorem signatures_indexing_safe :
    (∀ (allocations : List Allocation) (signatures : List String) (fs : Fs),
        allocations.length ≤ signatures.length →
        (append_transaction_infos allocations signatures fs).isSome) ∧
    (∀ (allocations : List Allocation) (signatures : List String) (fs : Fs),
        signatures.length < allocations.length →
        append_transaction_infos allocations signatures fs = none) ∧
    ∀ (allocations : List Allocation) (sender : String)
        (send_message : Message → String),
      (distribute_tokens allocations sender send_message).length =
        allocations.length := by
  refine ⟨?_, ?_, ?_⟩
  · intro allocations signatures fs h
    simp only [append_transaction_infos, writeRows_some allocations signatures h]
    rfl
  · intro allocations signatures fs h
    simp only [append_transaction_infos, writeRows_none allocations signatures h]
    rfl
  · intro allocations sender send_message
    simp [distribute_tokens]

/-- Witness for C10: with one signature for one allocation the append
succeeds; with one signature for two allocations it panics (`none`). -/
theorem signatures_indexing_safe_witness :
    (append_transaction_infos [Allocation.mk "A" 10] ["s1"]
      (Fs.mk none none)).isSome ∧
    append_transaction_infos [Allocation.mk "A" 10, Allocation.mk "B" 5] ["s1"]
      (Fs.mk none none) = none :=
  ⟨signatures_indexing_safe.1 [Allocation.mk "A" 10] ["s1"] (Fs.mk none none)
      (by norm_num),
   signatures_indexing_safe.2.1 [Allocation.mk "A" 10, Allocation.mk "B" 5]
      ["s1"] (Fs.mk none none) (by norm_num)⟩

/-- C9: dry run is effect-free — with the dry-run flag set the run
returns success, the transfer executor is never invoked, the file system
(ledger and backup) is unchanged, and the only output is the printed plan
of remaining allocations (empty when there is no work). -/
theorem process_distribute_dry_run
    (bids : List Bid) (dollars_per_sol : ℚ) (sender : String)
    (send_message : Message → String) (fs : Fs) :
    ∃ r : RunResult,
      process_distribute bids dollars_per_sol true sender send_message fs =
          some r ∧
        r.fs = fs ∧ r.transferCalls = [] ∧
        (r.printed = [] ∨ r.printed =
          apply_previous_transactions
            (bids.map (fun bid => create_allocation bid dollars_per_sol))
            (loadTransactionInfos fs)) := by
  simp only [process_distribute]
  split
  · exact ⟨RunResult.mk fs [] [], rfl, rfl, rfl, Or.inl rfl⟩
  · rw [if_pos trivial]
    exact ⟨RunResult.mk fs []
      (apply_previous_transactions
        (bids.map (fun bid => create_allocation bid dollars_per_sol))
        (loadTransactionInfos fs)), rfl, rfl, rfl, Or.inr rfl⟩

end SolanaTokens
